import Mathlib

/-!
Verification of the recurring-event time-field synchroniser of the fulcrum
events site (static/js/event-management.js, `MARK: time entry` section).

Modelling conventions (shallow embedding):

* A `datetime-local` field value is modelled as `Option Int`: `none` is the
  empty string, `some t` is a valid local datetime whose `new Date(...)` value
  is `t` milliseconds since the epoch.  The browser sanitises assignments to
  such a field: writing a string that is not a valid `YYYY-MM-DDTHH:MM` local
  datetime (in particular the `NaN-NaN-NaNTNaN:NaN` output that
  `formatDateTimeInput` produces for an invalid `Date`) yields the empty
  value, and a valid write keeps only minute resolution.  `formatDateTimeInput`
  below therefore maps an invalid date (`none`) to `none` and a valid date to
  its minute-floor.  Dates are assumed to stay inside the four-digit-year
  range in which the sanitiser accepts `formatDateTimeInput`'s output.
* `NaN` propagation of JS date arithmetic is modelled by `Option` bind.
* Custom validity messages are carried verbatim; `""` means valid.
* The `duration` text input holds an arbitrary string, modelled as `String`.
* JS `Number` arithmetic on these integral millisecond quantities is exact,
  so it is modelled by `Int`.
-/

namespace Fulcrum

/-- One `.time-entry` row: a start field, an end field, and the custom
validity message attached to the end field (`""` = valid). -/
structure Entry where
  start : Option Int
  end_ : Option Int
  validity : String
deriving Repr, DecidableEq

/-- The synchroniser state: the ordered `.time-entry` rows, the module-level
`eventDuration` (ms), the text of the `#duration` input, the custom validity
message of the `#duration` input and whether `#add-time` lacks the
`disabled` class. -/
structure SyncState where
  entries : List Entry
  eventDuration : Int
  durationField : String
  durationValidity : String
  addEnabled : Bool
deriving Repr, DecidableEq

/-! ### Duration formatting and parsing -/

/-- JS `n.toString().padStart(2, "0")` for a natural number. -/
def pad2 (n : Nat) : String :=
  let s := Nat.repr n
  String.mk (List.replicate (2 - s.length) '0') ++ s

/-- Source `formatDuration`: convert ms into `DD:HH:MM` format, clamping
negative input to 0 first. -/
def formatDuration (input : Int) : String :=
  let i : Nat := input.toNat
  let days := i / (1000 * 60 * 60 * 24)
  let hours := (i % (1000 * 60 * 60 * 24)) / (1000 * 60 * 60)
  let minutes := (i % (1000 * 60 * 60)) / (1000 * 60)
  pad2 days ++ ":" ++ pad2 hours ++ ":" ++ pad2 minutes

/-- JS `Number` of a one-digit string character. -/
def digitVal (c : Char) : Nat := c.toNat - 48

/-- JS `Number` of a two-digit string. -/
def twoDigitVal (c1 c2 : Char) : Nat := 10 * digitVal c1 + digitVal c2

/-- Character-list form of the `^\d\x7b2\x7d:\d\x7b2\x7d:\d\x7b2\x7d$` test
together with the `split(":").map(Number)` computation of `parseDuration`. -/
def parseDurationChars : List Char → Int
  | [d1, d2, ':', h1, h2, ':', m1, m2] =>
    if d1.isDigit && d2.isDigit && h1.isDigit && h2.isDigit && m1.isDigit && m2.isDigit then
      ((twoDigitVal d1 d2 * 24 * 60 * 60 + twoDigitVal h1 h2 * 60 * 60 + twoDigitVal m1 m2 * 60)
          * 1000 : Nat)
    else 0
  | _ => 0

/-- Source `parseDuration`: parse `DD:HH:MM` format into milliseconds,
returning 0 when the regex does not match. -/
def parseDuration (input : String) : Int :=
  parseDurationChars input.data

/-- Character-list form of the regex test alone (two digits, colon, two
digits, colon, two digits). -/
def isDDHHMMChars : List Char → Bool
  | [d1, d2, c1, h1, h2, c2, m1, m2] =>
    d1.isDigit && d2.isDigit && c1 == ':' && h1.isDigit && h2.isDigit && c2 == ':' && m1.isDigit
      && m2.isDigit
  | _ => false

/-- Whether a string matches the `DD:HH:MM` shape accepted by
`parseDuration`. -/
def isDDHHMM (s : String) : Bool :=
  isDDHHMMChars s.data

/-! ### Auxiliary facts about digits and `pad2` -/

theorem digit_toNat_bounds (c : Char) (h : c.isDigit = true) :
    48 ≤ c.toNat ∧ c.toNat ≤ 57 := by
  unfold Char.isDigit at h
  simp only [Bool.and_eq_true, decide_eq_true_eq, ge_iff_le] at h
  exact ⟨UInt32.le_toNat_of_le (by norm_num [UInt32.size]) h.1,
    UInt32.toNat_le_of_le (by norm_num [UInt32.size]) h.2⟩

theorem digitVal_lt_ten (c : Char) (h : c.isDigit = true) : digitVal c < 10 := by
  have := digit_toNat_bounds c h
  unfold digitVal
  omega

theorem char_eq_ofNat_digitVal (c : Char) (h : c.isDigit = true) :
    c = Char.ofNat (48 + digitVal c) := by
  have hb := digit_toNat_bounds c h
  have h48 : 48 + digitVal c = c.toNat := by
    unfold digitVal
    omega
  rw [h48, Char.ofNat_toNat]

set_option maxRecDepth 20000 in
theorem pad2_two_digits :
    ∀ a < 10, ∀ b < 10,
      pad2 (10 * a + b) = String.mk [Char.ofNat (48 + a), Char.ofNat (48 + b)] := by
  decide

theorem pad2_twoDigitVal (c1 c2 : Char) (h1 : c1.isDigit = true) (h2 : c2.isDigit = true) :
    pad2 (twoDigitVal c1 c2) = String.mk [c1, c2] := by
  have e1 := char_eq_ofNat_digitVal c1 h1
  have e2 := char_eq_ofNat_digitVal c2 h2
  unfold twoDigitVal
  rw [pad2_two_digits (digitVal c1) (digitVal_lt_ten c1 h1) (digitVal c2) (digitVal_lt_ten c2 h2)]
  rw [← e1, ← e2]

/-! ### Datetime fields and per-entry operations -/

/-- Millisecond value of one week, as written in the source
(`7 * 24 * 60 * 60 * 1000`). -/
def weekMs : Int := 7 * 24 * 60 * 60 * 1000

/-- Truncation of a millisecond timestamp to minute resolution, which is what
surviving a round trip through a `datetime-local` field does to a valid
date. -/
def minuteFloor (t : Int) : Int := t - t % 60000

/-- Source `formatDateTimeInput` composed with the field's value sanitiser:
writing an invalid date empties the field, writing a valid date keeps its
minute-floor. -/
def formatDateTimeInput : Option Int → Option Int
  | none => none
  | some t => some (minuteFloor t)

/-- The validity message set by `validateEndTime`. -/
def endTimeMsg : String := "End time must be after start time."

/-- The validity message set by the `#duration` input handler. -/
def durationMsg : String := "Please provide a valid duration in DD:HH:MM format."

/-- Source `validateEndTime` on one row: flags the end field iff
`startTime >= endTime`; a `NaN` on either side makes the comparison false,
so a missing start or end clears the message. -/
def validateEndTime (e : Entry) : Entry :=
  match e.start, e.end_ with
  | some s, some t => if s ≥ t then { e with validity := endTimeMsg } else { e with validity := "" }
  | _, _ => { e with validity := "" }

/-- Body of the `forEach` in source `syncEndTimes`: set the end to
`start + eventDuration` (an invalid date, hence an emptied field, when the
start is empty) and revalidate. -/
def syncEntry (dur : Int) (e : Entry) : Entry :=
  match e.start with
  | some s => validateEndTime { e with end_ := formatDateTimeInput (some (s + dur)) }
  | none => validateEndTime { e with end_ := none }

/-- Source `syncEndTimes`: sync all end times from the starts and
`eventDuration`. -/
def syncEndTimes (st : SyncState) : SyncState :=
  { st with entries := st.entries.map (syncEntry st.eventDuration) }

/-- Replace entry `k` by `f` applied to it (out-of-range `k` is impossible in
the DOM and leaves the list unchanged). -/
def modifyEntry (l : List Entry) (k : Nat) (f : Entry → Entry) : List Entry :=
  match l[k]? with
  | some e => l.set k (f e)
  | none => l

/-- Source `updateDuration`, fired on entry `k` whose end field was edited:
requires a present start and end, derives `end - start`, rejects a negative
difference with a validity message, otherwise adopts it as `eventDuration`,
rewrites the `#duration` display and broadcasts via `syncEndTimes`. -/
def updateDuration (st : SyncState) (k : Nat) : SyncState :=
  match st.entries[k]? with
  | none => st
  | some e =>
    match e.start, e.end_ with
    | some s, some t =>
      let duration := t - s
      if duration < 0 then
        { st with entries := modifyEntry st.entries k fun e' => { e' with validity := endTimeMsg } }
      else
        syncEndTimes
          { st with
            entries := modifyEntry st.entries k fun e' => { e' with validity := "" }
            eventDuration := duration
            durationField := formatDuration duration }
    | _, _ => st

/-- The `for` loop of source `updateFutureStartTimes`, walking the entries
after the edited one and carrying the (possibly just-updated) previous
entry's start field value.  A row whose predecessor has an empty start is
skipped (`continue`). -/
def cascade (dur delta : Int) : Option Int → List Entry → List Entry
  | _, [] => []
  | none, e :: rest => e :: cascade dur delta e.start rest
  | some p, e :: rest =>
    let e' := validateEndTime
      { e with
        start := formatDateTimeInput (some (p + delta))
        end_ := formatDateTimeInput (some (p + delta + dur)) }
    e' :: cascade dur delta e'.start rest

/-- The delta chosen by source `updateFutureStartTimes` for an edit of entry
`k`: a week by default, and the distance from entry `k-1`'s start to the
edited entry's new start when `k > 0` and both values are present. -/
def cascadeDelta (st : SyncState) (k : Nat) : Int :=
  if k > 0 then
    match (st.entries[k-1]?).bind Entry.start, (st.entries[k]?).bind Entry.start with
    | some p, some c => c - p
    | _, _ => weekMs
  else weekMs

/-- Source `updateFutureStartTimes` (the changed input is entry `k`'s start
field, already holding the new value): no-op unless some entry follows `k`;
otherwise rewrite every later entry's start (and, unconditionally, its end)
by cascading the delta. -/
def updateFutureStartTimes (st : SyncState) (k : Nat) : SyncState :=
  if k + 1 ≥ st.entries.length then st
  else
    { st with
      entries :=
        st.entries.take (k+1) ++
          cascade st.eventDuration (cascadeDelta st k) ((st.entries[k]?).bind Entry.start)
            (st.entries.drop (k+1)) }

/-- Source `toggleAddTimeButton`: enable `#add-time` iff the first start
input exists and is non-empty. -/
def toggleAddTimeButton (st : SyncState) : SyncState :=
  match st.entries.head? with
  | some e => { st with addEnabled := e.start.isSome }
  | none => { st with addEnabled := false }

/-- The `start_time[]` branch of the `#time-fields` input handler, modelling
a user edit that sets entry `k`'s start to `v` and then runs the handler:
`toggleAddTimeButton`, the unconditional `classList.remove("disabled")` on
`#add-time`, `updateFutureStartTimes`, and finally the edited entry's own
end update, skipped when `eventDuration <= 0`. -/
def editStart (st : SyncState) (k : Nat) (v : Option Int) : SyncState :=
  if k < st.entries.length then
    let st0 := { st with entries := modifyEntry st.entries k fun e => { e with start := v } }
    let st1 := { toggleAddTimeButton st0 with addEnabled := true }
    let st2 := updateFutureStartTimes st1 k
    if st2.eventDuration ≤ 0 then st2
    else
      { st2 with
        entries := modifyEntry st2.entries k fun e =>
          validateEndTime { e with end_ := formatDateTimeInput (v.map (· + st2.eventDuration)) } }
  else st

/-- The `end_time[]` branch of the `#time-fields` input handler, modelling a
user edit that sets entry `k`'s end to `v` and then runs the handler:
`toggleAddTimeButton`, `updateDuration`, `validateEndTime`. -/
def editEnd (st : SyncState) (k : Nat) (v : Option Int) : SyncState :=
  if k < st.entries.length then
    let st0 := { st with entries := modifyEntry st.entries k fun e => { e with end_ := v } }
    let st1 := toggleAddTimeButton st0
    let st2 := updateDuration st1 k
    { st2 with entries := modifyEntry st2.entries k validateEndTime }
  else st

/-- The `#duration` input handler, modelling a user edit that sets the
duration field text to `s`: adopt the parse and broadcast when it is
positive, otherwise only attach the fixed validity message. -/
def editDuration (st : SyncState) (s : String) : SyncState :=
  let st0 := { st with durationField := s }
  let duration := parseDuration s
  if duration > 0 then
    { syncEndTimes { st0 with eventDuration := duration } with durationValidity := "" }
  else
    { st0 with durationValidity := durationMsg }

/-- The `#add-time` click handler (`addEntry` in the spec).  Requires the
last entry's start to be non-empty (else no-op); with more than one entry the
delta is last start minus penultimate start, which is `NaN` when the
penultimate start is empty (modelled as `none`), making both new fields
empty after sanitisation.  The source throws on an empty entry list (it
indexes `allEntries[-1]`); the page always has at least one row, and the
model leaves that unreachable case a no-op. -/
def addEntry (st : SyncState) : SyncState :=
  match st.entries.getLast? with
  | none => st
  | some lastEntry =>
    match lastEntry.start with
    | none => st
    | some p =>
      let delta : Option Int :=
        if st.entries.length > 1 then
          match (st.entries[st.entries.length - 2]?).bind Entry.start with
          | some q => some (p - q)
          | none => none
        else some weekMs
      match delta with
      | none => { st with entries := st.entries ++ [⟨none, none, ""⟩] }
      | some d =>
        let newStart := p + d
        let newEnd : Option Int :=
          if st.eventDuration > 0 then formatDateTimeInput (some (newStart + st.eventDuration))
          else none
        { st with
          entries := st.entries ++ [⟨formatDateTimeInput (some newStart), newEnd, ""⟩] }

/-- The delegated `remove-time-entry` click handler: remove row `k`. -/
def removeEntry (st : SyncState) (k : Nat) : SyncState :=
  { st with entries := st.entries.eraseIdx k }

/-- Source `initialiseTimes`: on load, derive `eventDuration` from the first
entry when it has both fields (only when the difference is non-negative),
else adopt a positive parse of the `#duration` text and, when the first
entry has a start, derive its end; then revalidate every end and run the
add-button gate. -/
def initialiseTimes (st : SyncState) : SyncState :=
  match st.entries.head? with
  | none => st
  | some e0 =>
    let st1 :=
      match e0.start, e0.end_ with
      | some s, some t =>
        let initialDuration := t - s
        if initialDuration ≥ 0 then
          { st with eventDuration := initialDuration
                    durationField := formatDuration initialDuration }
        else st
      | _, _ =>
        let initialDuration := parseDuration st.durationField
        if initialDuration > 0 then
          let st' := { st with eventDuration := initialDuration }
          match e0.start with
          | some s =>
            { st' with
              entries := modifyEntry st'.entries 0 fun e =>
                { e with end_ := formatDateTimeInput (some (s + initialDuration)) } }
          | none => st'
        else st
    let st2 := { st1 with entries := st1.entries.map validateEndTime }
    toggleAddTimeButton st2

/-- The user-triggered operations of the synchroniser. -/
inductive Op where
  | editStart : Nat → Option Int → Op
  | editEnd : Nat → Option Int → Op
  | editDuration : String → Op
  | add : Op
  | remove : Nat → Op
deriving Repr, DecidableEq

/-- Run one operation. -/
def Op.apply : Op → SyncState → SyncState
  | .editStart k v, st => Fulcrum.editStart st k v
  | .editEnd k v, st => Fulcrum.editEnd st k v
  | .editDuration s, st => Fulcrum.editDuration st s
  | .add, st => Fulcrum.addEntry st
  | .remove k, st => Fulcrum.removeEntry st k

/-! ### Claims C5 and C4: parseDuration and the round trip -/

/-- C5: `parseDuration` returns 0 for every string that does not match
exactly two digits, colon, two digits, colon, two digits; for every matching
string it returns `((D*24+H)*60+M)*60*1000` milliseconds, with no range
check on the hour or minute components (any two-digit values are accepted). -/
theorem parseDuration_zero_or_formula :
    (∀ s : String, isDDHHMM s = false → parseDuration s = 0) ∧
    (∀ d1 d2 h1 h2 m1 m2 : Char, d1.isDigit = true → d2.isDigit = true →
      h1.isDigit = true → h2.isDigit = true → m1.isDigit = true → m2.isDigit = true →
      parseDuration (String.mk [d1, d2, ':', h1, h2, ':', m1, m2]) =
        ((twoDigitVal d1 d2 * 24 + twoDigitVal h1 h2) * 60 + twoDigitVal m1 m2) * 60 * 1000) := by
  constructor
  · intro s hs
    show parseDurationChars s.data = 0
    rw [show isDDHHMM s = isDDHHMMChars s.data from rfl] at hs
    generalize s.data = l at hs ⊢
    unfold parseDurationChars
    split
    · rename_i d1 d2 h1 h2 m1 m2
      cases hc : (d1.isDigit && d2.isDigit && h1.isDigit && h2.isDigit && m1.isDigit && m2.isDigit) with
      | false => simp [hc]
      | true =>
        simp only [Bool.and_eq_true] at hc
        unfold isDDHHMMChars at hs
        simp [hc.1.1.1.1.1, hc.1.1.1.1.2, hc.1.1.1.2, hc.1.1.2, hc.1.2, hc.2] at hs
    · rfl
  · intro d1 d2 h1 h2 m1 m2 hd1 hd2 hh1 hh2 hm1 hm2
    show parseDurationChars [d1, d2, ':', h1, h2, ':', m1, m2] = _
    unfold parseDurationChars
    simp only [hd1, hd2, hh1, hh2, hm1, hm2, Bool.and_self, if_true]
    push_cast
    ring

theorem parseDuration_zero_or_formula_witness :
    parseDuration "1:2:3" = 0 ∧ parseDuration "99:99:99" = 8915940000 := by
  constructor
  · exact parseDuration_zero_or_formula.1 "1:2:3" (by decide)
  · have h := parseDuration_zero_or_formula.2 '9' '9' '9' '9' '9' '9'
      (by decide) (by decide) (by decide) (by decide) (by decide) (by decide)
    exact h.trans (by decide)

/-- C4: for every string of the form `DD:HH:MM` with two-digit fields whose
hours are at most 23 and minutes at most 59,
`formatDuration (parseDuration s) = s`. -/
theorem formatDuration_parseDuration_roundTrip
    (d1 d2 h1 h2 m1 m2 : Char) (hd1 : d1.isDigit = true) (hd2 : d2.isDigit = true)
    (hh1 : h1.isDigit = true) (hh2 : h2.isDigit = true) (hm1 : m1.isDigit = true)
    (hm2 : m2.isDigit = true) (hH : twoDigitVal h1 h2 ≤ 23) (hM : twoDigitVal m1 m2 ≤ 59) :
    formatDuration (parseDuration (String.mk [d1, d2, ':', h1, h2, ':', m1, m2])) =
      String.mk [d1, d2, ':', h1, h2, ':', m1, m2] := by
  have hp : parseDuration (String.mk [d1, d2, ':', h1, h2, ':', m1, m2]) =
      ((twoDigitVal d1 d2 * 24 * 60 * 60 + twoDigitVal h1 h2 * 60 * 60 + twoDigitVal m1 m2 * 60)
        * 1000 : Nat) := by
    show parseDurationChars [d1, d2, ':', h1, h2, ':', m1, m2] = _
    unfold parseDurationChars
    simp [hd1, hd2, hh1, hh2, hm1, hm2]
  rw [hp]
  unfold formatDuration
  rw [Int.toNat_natCast]
  have e1 : (twoDigitVal d1 d2 * 24 * 60 * 60 + twoDigitVal h1 h2 * 60 * 60
      + twoDigitVal m1 m2 * 60) * 1000 / (1000 * 60 * 60 * 24) = twoDigitVal d1 d2 := by
    omega
  have e2 : (twoDigitVal d1 d2 * 24 * 60 * 60 + twoDigitVal h1 h2 * 60 * 60
      + twoDigitVal m1 m2 * 60) * 1000 % (1000 * 60 * 60 * 24) / (1000 * 60 * 60)
      = twoDigitVal h1 h2 := by
    omega
  have e3 : (twoDigitVal d1 d2 * 24 * 60 * 60 + twoDigitVal h1 h2 * 60 * 60
      + twoDigitVal m1 m2 * 60) * 1000 % (1000 * 60 * 60) / (1000 * 60)
      = twoDigitVal m1 m2 := by
    omega
  simp only [e1, e2, e3]
  rw [pad2_twoDigitVal d1 d2 hd1 hd2, pad2_twoDigitVal h1 h2 hh1 hh2,
    pad2_twoDigitVal m1 m2 hm1 hm2]
  apply String.ext
  simp [String.data_append]

theorem formatDuration_parseDuration_roundTrip_witness :
    formatDuration (parseDuration "01:23:45") = "01:23:45" :=
  formatDuration_parseDuration_roundTrip '0' '1' '2' '3' '4' '5'
    (by decide) (by decide) (by decide) (by decide) (by decide) (by decide)
    (by decide) (by decide)

/-! ### Claim C7: removing an entry -/

/-- C7: `removeEntry k` deletes exactly entry `k` from the ordered list,
leaves every entry before `k` and after `k` (with indices shifted down by
one) unchanged in start, end and validity, and leaves the shared
`eventDuration` (as well as the duration display) unchanged. -/
theorem removeEntry_removes_exactly_k (st : SyncState) (k : Nat)
    (hk : k < st.entries.length) :
    (removeEntry st k).entries = st.entries.take k ++ st.entries.drop (k+1) ∧
    (∀ i, i < k → (removeEntry st k).entries[i]? = st.entries[i]?) ∧
    (∀ i, k ≤ i → (removeEntry st k).entries[i]? = st.entries[i+1]?) ∧
    (removeEntry st k).eventDuration = st.eventDuration ∧
    (removeEntry st k).durationField = st.durationField ∧
    (removeEntry st k).durationValidity = st.durationValidity := by
  have he : (removeEntry st k).entries = st.entries.take k ++ st.entries.drop (k+1) :=
    List.eraseIdx_eq_take_drop_succ st.entries k
  have hlen : (st.entries.take k).length = k := by
    simp [hk.le]
  refine ⟨he, ?_, ?_, rfl, rfl, rfl⟩
  · intro i hi
    rw [he, List.getElem?_append_left (by omega), List.getElem?_take]
    simp [hi]
  · intro i hi
    rw [he, List.getElem?_append_right (by omega), List.getElem?_drop, hlen]
    congr 1
    omega

theorem removeEntry_removes_exactly_k_witness :
    1 < (SyncState.mk [⟨some 0, none, ""⟩, ⟨some 1, some 2, "x"⟩, ⟨none, some 3, ""⟩]
        5 "d" "v" true).entries.length ∧
    (removeEntry (SyncState.mk [⟨some 0, none, ""⟩, ⟨some 1, some 2, "x"⟩, ⟨none, some 3, ""⟩]
        5 "d" "v" true) 1).entries =
      (SyncState.mk [⟨some 0, none, ""⟩, ⟨some 1, some 2, "x"⟩, ⟨none, some 3, ""⟩]
        5 "d" "v" true).entries.take 1 ++
      (SyncState.mk [⟨some 0, none, ""⟩, ⟨some 1, some 2, "x"⟩, ⟨none, some 3, ""⟩]
        5 "d" "v" true).entries.drop 2 :=
  ⟨by decide,
    (removeEntry_removes_exactly_k
      (SyncState.mk [⟨some 0, none, ""⟩, ⟨some 1, some 2, "x"⟩, ⟨none, some 3, ""⟩] 5 "d" "v" true)
      1 (by decide)).1⟩

/-! ### Claim C10: a literal zero duration is rejected -/

/-- C10: the string `"00:00:00"` matches the documented `DD:HH:MM` shape,
yet entering it in the duration field attaches the validity error
`"Please provide a valid duration in DD:HH:MM format."` and leaves
`eventDuration` and all entries unchanged, because `parseDuration`'s failure
sentinel 0 coincides with a parsed zero duration; more generally no duration
edit ever moves `eventDuration` to a value that is not positive, so a zero
duration can never be established through this field. -/
theorem zero_duration_never_established (st : SyncState) :
    isDDHHMM "00:00:00" = true ∧
    parseDuration "00:00:00" = 0 ∧
    (editDuration st "00:00:00").durationValidity = durationMsg ∧
    (editDuration st "00:00:00").eventDuration = st.eventDuration ∧
    (editDuration st "00:00:00").entries = st.entries ∧
    (∀ s : String,
      (editDuration st s).eventDuration = st.eventDuration ∨
        0 < (editDuration st s).eventDuration) := by
  refine ⟨by decide, by decide, ?_, ?_, ?_, ?_⟩
  · show (editDuration st "00:00:00").durationValidity = durationMsg
    unfold editDuration
    norm_num [show parseDuration "00:00:00" = 0 from by decide]
  · unfold editDuration
    norm_num [show parseDuration "00:00:00" = 0 from by decide]
  · unfold editDuration
    norm_num [show parseDuration "00:00:00" = 0 from by decide]
  · intro s
    unfold editDuration
    by_cases h : parseDuration s > 0
    · right
      simp [h, syncEndTimes]
    · left
      simp [h]

/-! ### Claim C8: the add-button gate is defeated by start edits -/

/-- A one-row state whose only entry is completely empty, used to exercise
the add-button gate. -/
def gateState : SyncState :=
  ⟨[⟨some 0, none, ""⟩], 0, "", "", true⟩

/-- C8 fails on the code: clearing the first (and only) entry's start runs
`toggleAddTimeButton` (which disables the button) but the `start_time[]`
branch then unconditionally removes the `disabled` class again, so the
add control ends up enabled although the first entry's start is empty. -/
theorem addEnabled_despite_empty_first_start :
    (editStart gateState 0 none).addEnabled = true ∧
    ((editStart gateState 0 none).entries.head?.map Entry.start) = some none := by
  decide

/-! ### States used to refute claims C1, C2, C6 and C9 -/

/-- A freshly loaded page with two pre-populated rows whose own durations
differ (one minute for row 0, three minutes for row 1). -/
def loadedState : SyncState :=
  ⟨[⟨some 0, some 60000, ""⟩, ⟨some 0, some 180000, ""⟩], 0, "", "", false⟩

/-- Two rows two days apart with no shared duration yet. -/
def twoDayState : SyncState :=
  ⟨[⟨some 0, none, ""⟩, ⟨some 172800000, none, ""⟩], 0, "", "", true⟩

/-- Two rows: an empty penultimate row and a populated last row. -/
def emptyPenultimateState : SyncState :=
  ⟨[⟨none, none, ""⟩, ⟨some 0, none, ""⟩], 0, "", "", true⟩

/-- Two rows, no shared duration; the second row has both fields set. -/
def zeroDurationState : SyncState :=
  ⟨[⟨some 0, none, ""⟩, ⟨some 172800000, some 259200000, ""⟩], 0, "", "", true⟩

/-- C1 fails after `initialiseTimes`: on `loadedState` it derives
`eventDuration = 60000` from row 0 but never re-syncs row 1, whose end
(180000) differs from its start plus the new duration (60000) even though
no user edit ever overrode that end. -/
theorem initialise_leaves_second_entry_out_of_sync :
    (initialiseTimes loadedState).eventDuration = 60000 ∧
    (initialiseTimes loadedState).entries[1]? = some ⟨some 0, some 180000, ""⟩ ∧
    (some (0 + 60000 : Int) : Option Int) ≠ some 180000 := by
  decide

/-- C2 fails on the code: on `twoDayState` (rows spaced two days apart),
editing row 0's start to one day pushes row 1 to the new start plus seven
days (691200000 ms), not the new start plus the observed two-day spacing
(259200000 ms). -/
theorem edit_first_start_ignores_observed_spacing :
    ((editStart twoDayState 0 (some 86400000)).entries[1]?.bind Entry.start
      = some 691200000) ∧
    (86400000 + 172800000 : Int) = 259200000 ∧
    (691200000 : Int) ≠ 259200000 := by
  decide

/-- C6 fails on the code: on `emptyPenultimateState` the last row's start is
present, yet `addEntry` appends a row whose start (and end) are empty,
because the delta derived from the empty penultimate start is `NaN`. -/
theorem addEntry_appends_empty_row_when_penultimate_start_empty :
    (emptyPenultimateState.entries.getLast?.map Entry.start) = some (some 0) ∧
    (addEntry emptyPenultimateState).entries.length = 3 ∧
    (addEntry emptyPenultimateState).entries[2]? = some ⟨none, none, ""⟩ := by
  decide

/-- C9 fails on the code: with `eventDuration = 0`, editing row 0's start on
`zeroDurationState` rewrites the cascaded row 1's end from 259200000 to its
new start value 691200000 (and flags it invalid), rather than leaving it
untouched. -/
theorem cascade_overwrites_ends_when_duration_zero :
    zeroDurationState.eventDuration = 0 ∧
    zeroDurationState.entries[1]?.map Entry.end_ = some (some 259200000) ∧
    (editStart zeroDurationState 0 (some 86400000)).entries[1]?
      = some ⟨some 691200000, some 691200000, endTimeMsg⟩ := by
  decide

/-! ### Minute alignment

Every value a user can type into a `datetime-local` field has minute
resolution, so every reachable field value and every reachable
`eventDuration` is a multiple of 60000 ms.  The invariant theorems carry
this as an explicit hypothesis on states and on edited values. -/

/-- A possibly-empty field value has minute resolution. -/
def OptAligned : Option Int → Prop
  | none => True
  | some t => t % 60000 = 0

instance (o : Option Int) : Decidable (OptAligned o) :=
  match o with
  | none => isTrue trivial
  | some t => inferInstanceAs (Decidable (t % 60000 = 0))

/-- Both fields of a row have minute resolution. -/
def EntryAligned (e : Entry) : Prop :=
  OptAligned e.start ∧ OptAligned e.end_

instance (e : Entry) : Decidable (EntryAligned e) :=
  inferInstanceAs (Decidable (_ ∧ _))

/-- The shared duration and all rows have minute resolution. -/
def StateAligned (st : SyncState) : Prop :=
  st.eventDuration % 60000 = 0 ∧ ∀ e ∈ st.entries, EntryAligned e

instance (st : SyncState) : Decidable (StateAligned st) :=
  inferInstanceAs (Decidable (_ ∧ _))

/-- The value carried by a user edit has minute resolution (vacuous for the
operations that do not carry a datetime). -/
def OpAligned : Op → Prop
  | .editStart _ v => OptAligned v
  | .editEnd _ v => OptAligned v
  | _ => True

instance (op : Op) : Decidable (OpAligned op) :=
  match op with
  | .editStart _ v => inferInstanceAs (Decidable (OptAligned v))
  | .editEnd _ v => inferInstanceAs (Decidable (OptAligned v))
  | .editDuration _ => isTrue trivial
  | .add => isTrue trivial
  | .remove _ => isTrue trivial

/-! ### The end-sync invariant -/

/-- Row `e` is consistent with the shared duration `dur`: when it has a
start, its end is exactly that start plus `dur`. -/
def endMatches (dur : Int) (e : Entry) : Prop :=
  match e.start with
  | some s => e.end_ = some (s + dur)
  | none => True

instance (dur : Int) (e : Entry) : Decidable (endMatches dur e) :=
  match h : e.start with
  | some s => decidable_of_iff (e.end_ = some (s + dur)) (by unfold endMatches; rw [h])
  | none => isTrue (by unfold endMatches; rw [h]; trivial)

/-- The claimed per-row invariant: while a positive shared duration is set,
a row with a start has end = start + duration. -/
def InvAt (dur : Int) (e : Entry) : Prop :=
  0 < dur → endMatches dur e

instance (dur : Int) (e : Entry) : Decidable (InvAt dur e) :=
  inferInstanceAs (Decidable (_ → _))

/-- The claimed state invariant, over every row. -/
def Inv (st : SyncState) : Prop :=
  ∀ e ∈ st.entries, InvAt st.eventDuration e

instance (st : SyncState) : Decidable (Inv st) :=
  inferInstanceAs (Decidable (∀ e ∈ st.entries, InvAt st.eventDuration e))

/-- The rows whose end field the operation itself directly overwrote with a
user-chosen value: exactly the target of an end edit. -/
def overrodeEnd : Op → Nat → Prop
  | .editEnd k _, i => i = k
  | _, _ => False

instance (op : Op) (i : Nat) : Decidable (overrodeEnd op i) :=
  match op with
  | .editEnd k _ => inferInstanceAs (Decidable (i = k))
  | .editStart _ _ => isFalse id
  | .editDuration _ => isFalse id
  | .add => isFalse id
  | .remove _ => isFalse id

/-! ### Small laws of the building blocks -/

theorem minuteFloor_of_aligned {t : Int} (h : t % 60000 = 0) : minuteFloor t = t := by
  unfold minuteFloor
  omega

theorem minuteFloor_add_aligned (x : Int) {d : Int} (h : d % 60000 = 0) :
    minuteFloor (x + d) = minuteFloor x + d := by
  unfold minuteFloor
  omega

theorem minuteFloor_aligned (t : Int) : minuteFloor t % 60000 = 0 := by
  unfold minuteFloor
  omega

theorem validateEndTime_start (e : Entry) : (validateEndTime e).start = e.start := by
  unfold validateEndTime
  cases hs : e.start <;> cases ht : e.end_ <;> simp
  split <;> rfl

theorem validateEndTime_end (e : Entry) : (validateEndTime e).end_ = e.end_ := by
  unfold validateEndTime
  cases hs : e.start <;> cases ht : e.end_ <;> simp
  split <;> rfl

theorem parseDuration_aligned (s : String) : parseDuration s % 60000 = 0 := by
  show parseDurationChars s.data % 60000 = 0
  unfold parseDurationChars
  split
  · split
    · rename_i d1 d2 h1 h2 m1 m2 hdig
      push_cast
      omega
    · rfl
  · rfl

/-- Full description of one row after `syncEndTimes` in the aligned case:
the end becomes start + duration exactly, and the row is flagged exactly
when the duration is not positive. -/
theorem syncEntry_aligned (dur : Int) (hd : dur % 60000 = 0) (e : Entry)
    (hs : OptAligned e.start) :
    syncEntry dur e =
      match e.start with
      | some s => ⟨some s, some (s + dur), if dur ≤ 0 then endTimeMsg else ""⟩
      | none => ⟨none, none, ""⟩ := by
  unfold syncEntry
  cases h : e.start with
  | none =>
    simp [validateEndTime]
  | some s =>
    have hsa : s % 60000 = 0 := by
      rw [h] at hs
      exact hs
    dsimp only [formatDateTimeInput]
    rw [minuteFloor_of_aligned (by omega)]
    unfold validateEndTime
    dsimp only
    by_cases hge : s ≥ s + dur
    · rw [if_pos hge, if_pos (by omega)]
    · rw [if_neg hge, if_neg (by omega)]

theorem syncEntry_invAt (dur : Int) (hd : dur % 60000 = 0) (e : Entry)
    (hs : OptAligned e.start) : InvAt dur (syncEntry dur e) := by
  intro hpos
  rw [syncEntry_aligned dur hd e hs]
  unfold endMatches
  cases h : e.start <;> simp

theorem syncEntry_start (dur : Int) (e : Entry) : (syncEntry dur e).start = e.start := by
  unfold syncEntry
  cases h : e.start <;> simp [validateEndTime_start]

theorem modifyEntry_length (l : List Entry) (k : Nat) (f : Entry → Entry) :
    (modifyEntry l k f).length = l.length := by
  unfold modifyEntry
  split <;> simp

theorem modifyEntry_getElem_ne (l : List Entry) (k : Nat) (f : Entry → Entry)
    (i : Nat) (h : i ≠ k) : (modifyEntry l k f)[i]? = l[i]? := by
  unfold modifyEntry
  split
  · rw [List.getElem?_set_ne (fun hh => h hh.symm)]
  · rfl

theorem modifyEntry_getElem_self (l : List Entry) (k : Nat) (f : Entry → Entry) :
    (modifyEntry l k f)[k]? = (l[k]?).map f := by
  unfold modifyEntry
  split
  · rename_i e he
    have hk : k < l.length := (List.getElem?_eq_some.mp he).1
    rw [he]
    simp [List.getElem?_set_self, hk]
  · rename_i he
    rw [he]
    rfl

theorem toggleAddTimeButton_entries (st : SyncState) :
    (toggleAddTimeButton st).entries = st.entries := by
  unfold toggleAddTimeButton
  split <;> rfl

theorem toggleAddTimeButton_eventDuration (st : SyncState) :
    (toggleAddTimeButton st).eventDuration = st.eventDuration := by
  unfold toggleAddTimeButton
  split <;> rfl

theorem toggleAddTimeButton_durationField (st : SyncState) :
    (toggleAddTimeButton st).durationField = st.durationField := by
  unfold toggleAddTimeButton
  split <;> rfl

theorem validateEndTime_some_some (s t : Int) (m : String) :
    validateEndTime ⟨some s, some t, m⟩ =
      ⟨some s, some t, if s ≥ t then endTimeMsg else ""⟩ := by
  unfold validateEndTime
  dsimp only
  split_ifs <;> rfl

/-- The rejecting branch of `updateDuration`: a present start and end with a
negative difference only flags the edited row. -/
theorem updateDuration_of_neg (st : SyncState) (k : Nat) (e : Entry) (s t : Int)
    (he : st.entries[k]? = some e) (hs : e.start = some s) (ht : e.end_ = some t)
    (hneg : t - s < 0) :
    updateDuration st k =
      { st with entries := modifyEntry st.entries k fun e' => { e' with validity := endTimeMsg } } := by
  unfold updateDuration
  rw [he]
  dsimp only
  rw [hs, ht]
  dsimp only
  rw [if_pos hneg]

/-- The adopting branch of `updateDuration`: a present start and end with a
non-negative difference re-derives the shared duration and broadcasts. -/
theorem updateDuration_of_nonneg (st : SyncState) (k : Nat) (e : Entry) (s t : Int)
    (he : st.entries[k]? = some e) (hs : e.start = some s) (ht : e.end_ = some t)
    (hpos : ¬ t - s < 0) :
    updateDuration st k =
      syncEndTimes
        { st with
          entries := modifyEntry st.entries k fun e' => { e' with validity := "" }
          eventDuration := t - s
          durationField := formatDuration (t - s) } := by
  unfold updateDuration
  rw [he]
  dsimp only
  rw [hs, ht]
  dsimp only
  rw [if_neg hpos]

theorem flag_iff_zero (d s' : Int) (hd0 : 0 ≤ d) :
    (if s' ≥ s' + d then endTimeMsg else "") = if d = 0 then endTimeMsg else "" := by
  by_cases h : d = 0
  · have hge : s' ≥ s' + d := by omega
    rw [if_pos hge, if_pos h]
  · have hlt : ¬ s' ≥ s' + d := by omega
    rw [if_neg hlt, if_neg h]

/-! ### Claim C3: editing an end field -/

/-- C3: when entry `k`'s end is edited to `t` while its start is `s`: a
negative `t - s` only attaches "End time must be after start time." to that
row's end field, leaving the shared `eventDuration`, the duration display
and every other row unchanged (no broadcast); a non-negative `t - s`
becomes the new shared `eventDuration`, the duration display is rewritten,
and every row's end is recomputed as its start plus the new duration and
revalidated (a row without a start gets an emptied end and a cleared
message). -/
theorem editEnd_spec (st : SyncState) (k : Nat) (e : Entry) (s t : Int)
    (hA : StateAligned st) (he : st.entries[k]? = some e) (hs : e.start = some s)
    (ht : t % 60000 = 0) :
    (t - s < 0 →
      (editEnd st k (some t)).eventDuration = st.eventDuration ∧
      (editEnd st k (some t)).durationField = st.durationField ∧
      (∀ i : Nat, i ≠ k → (editEnd st k (some t)).entries[i]? = st.entries[i]?) ∧
      (editEnd st k (some t)).entries[k]? = some ⟨some s, some t, endTimeMsg⟩) ∧
    (0 ≤ t - s →
      (editEnd st k (some t)).eventDuration = t - s ∧
      (editEnd st k (some t)).durationField = formatDuration (t - s) ∧
      (∀ (i : Nat) (e' : Entry), (editEnd st k (some t)).entries[i]? = some e' →
        match e'.start with
        | some s' => e'.end_ = some (s' + (t - s)) ∧
            e'.validity = if t - s = 0 then endTimeMsg else ""
        | none => e'.end_ = none ∧ e'.validity = "")) := by
  have hk : k < st.entries.length := (List.getElem?_eq_some.mp he).1
  have hmem : e ∈ st.entries := List.getElem?_mem he
  have hsa : s % 60000 = 0 := by
    have h1 := (hA.2 e hmem).1
    rw [hs] at h1
    exact h1
  have hEE : editEnd st k (some t) =
      (fun st2 => { st2 with entries := modifyEntry st2.entries k validateEndTime })
        (updateDuration
          (toggleAddTimeButton
            { st with entries := modifyEntry st.entries k fun e' => { e' with end_ := some t } })
          k) := by
    unfold editEnd
    rw [if_pos hk]
  set st1 : SyncState :=
    toggleAddTimeButton
      { st with entries := modifyEntry st.entries k fun e' => { e' with end_ := some t } }
    with hst1
  have hst1e : st1.entries = modifyEntry st.entries k fun e' => { e' with end_ := some t } := by
    rw [hst1, toggleAddTimeButton_entries]
  have hst1k : st1.entries[k]? = some ⟨some s, some t, e.validity⟩ := by
    rw [hst1e, modifyEntry_getElem_self, he, Option.map_some']
    rw [show ({ e with end_ := some t } : Entry) = ⟨e.start, some t, e.validity⟩ from rfl, hs]
  have hst1d : st1.eventDuration = st.eventDuration := by
    rw [hst1, toggleAddTimeButton_eventDuration]
  have hst1f : st1.durationField = st.durationField := by
    rw [hst1, toggleAddTimeButton_durationField]
  constructor
  · intro hneg
    have hUD : updateDuration st1 k =
        { st1 with entries := modifyEntry st1.entries k fun e' => { e' with validity := endTimeMsg } } :=
      updateDuration_of_neg st1 k ⟨some s, some t, e.validity⟩ s t hst1k rfl rfl hneg
    rw [hEE]
    dsimp only
    rw [hUD]
    refine ⟨hst1d, hst1f, ?_, ?_⟩
    · intro i hi
      rw [modifyEntry_getElem_ne _ _ _ _ hi, modifyEntry_getElem_ne _ _ _ _ hi, hst1e,
        modifyEntry_getElem_ne _ _ _ _ hi]
    · rw [modifyEntry_getElem_self, modifyEntry_getElem_self, hst1k]
      rw [Option.map_some', Option.map_some']
      rw [show ({ (⟨some s, some t, e.validity⟩ : Entry) with validity := endTimeMsg } : Entry)
          = ⟨some s, some t, endTimeMsg⟩ from rfl]
      rw [validateEndTime_some_some, if_pos (by omega)]
  · intro hnn
    have hd : (t - s) % 60000 = 0 := by omega
    have hUD : updateDuration st1 k =
        syncEndTimes
          { st1 with
            entries := modifyEntry st1.entries k fun e' => { e' with validity := "" }
            eventDuration := t - s
            durationField := formatDuration (t - s) } :=
      updateDuration_of_nonneg st1 k ⟨some s, some t, e.validity⟩ s t hst1k rfl rfl (by omega)
    rw [hEE]
    dsimp only
    rw [hUD]
    unfold syncEndTimes
    dsimp only
    refine ⟨rfl, rfl, ?_⟩
    intro i e' he'
    by_cases hik : i = k
    · subst hik
      rw [modifyEntry_getElem_self, List.getElem?_map, modifyEntry_getElem_self, hst1k,
        Option.map_some', Option.map_some', Option.map_some'] at he'
      rw [show ({ (⟨some s, some t, e.validity⟩ : Entry) with validity := "" } : Entry)
          = ⟨some s, some t, ""⟩ from rfl] at he'
      rw [syncEntry_aligned (t - s) hd ⟨some s, some t, ""⟩ hsa] at he'
      dsimp only at he'
      rw [validateEndTime_some_some] at he'
      have he'' : e' = ⟨some s, some (s + (t - s)), if s ≥ s + (t - s) then endTimeMsg else ""⟩ := by
        injection he' with h
        exact h.symm
      rw [he'']
      dsimp only
      rw [flag_iff_zero _ _ hnn]
      exact ⟨rfl, rfl⟩
    · rw [modifyEntry_getElem_ne _ _ _ _ hik, List.getElem?_map,
        modifyEntry_getElem_ne _ _ _ _ hik, hst1e, modifyEntry_getElem_ne _ _ _ _ hik] at he'
      obtain ⟨e0, he0, hmap⟩ := Option.map_eq_some'.mp he'
      have he0A : OptAligned e0.start := (hA.2 e0 (List.getElem?_mem he0)).1
      rw [syncEntry_aligned (t - s) hd e0 he0A] at hmap
      cases h0 : e0.start with
      | some s0 =>
        rw [h0] at hmap
        dsimp only at hmap
        rw [← hmap]
        dsimp only
        refine ⟨rfl, ?_⟩
        by_cases h00 : t - s = 0
        · rw [if_pos (by omega), if_pos h00]
        · rw [if_neg (by omega), if_neg h00]
      | none =>
        rw [h0] at hmap
        dsimp only at hmap
        rw [← hmap]
        exact ⟨rfl, rfl⟩

theorem editEnd_spec_witness :
    (editEnd ⟨[⟨some 0, some 60000, ""⟩], 60000, "00:00:01", "", true⟩ 0
        (some 120000)).eventDuration = 120000 - 0 :=
  ((editEnd_spec ⟨[⟨some 0, some 60000, ""⟩], 60000, "00:00:01", "", true⟩ 0
      ⟨some 0, some 60000, ""⟩ 0 120000 (by decide) (by decide) rfl (by decide)).2
    (by decide)).1

/-! ### Claim C6 (amended): adding an entry -/

theorem weekMs_aligned : weekMs % 60000 = 0 := by decide

/-- C6 (amended): `addEntry` is a no-op whenever the last entry's start is
empty.  Otherwise, with a single entry, or with two or more entries whose
penultimate start is present, it appends exactly one entry whose start is
the last start plus the delta (a week, resp. the spacing of the last two
starts) and whose end is the new start plus `eventDuration` when that is
positive and absent otherwise, leaving all existing entries unchanged; but
when the penultimate start is empty the delta is `NaN` and the appended
entry has empty start and end. -/
theorem addEntry_spec (st : SyncState) (hA : StateAligned st) (hne : st.entries ≠ []) :
    (st.entries.getLast?.bind Entry.start = none → addEntry st = st) ∧
    (∀ p : Int, st.entries.getLast?.bind Entry.start = some p →
      (st.entries.length = 1 →
        (addEntry st).entries = st.entries ++
          [⟨some (p + weekMs),
            if st.eventDuration > 0 then some (p + weekMs + st.eventDuration) else none, ""⟩]) ∧
      (∀ q : Int, 1 < st.entries.length →
        st.entries[st.entries.length - 2]?.bind Entry.start = some q →
        (addEntry st).entries = st.entries ++
          [⟨some (p + (p - q)),
            if st.eventDuration > 0 then some (p + (p - q) + st.eventDuration) else none, ""⟩]) ∧
      (1 < st.entries.length → st.entries[st.entries.length - 2]?.bind Entry.start = none →
        (addEntry st).entries = st.entries ++ [⟨none, none, ""⟩])) := by
  have hlen : 0 < st.entries.length := List.length_pos.mpr hne
  obtain ⟨lastE, hlast⟩ : ∃ a, st.entries.getLast? = some a := by
    rw [List.getLast?_eq_getElem?]
    exact ⟨_, List.getElem?_eq_some.mpr ⟨by omega, rfl⟩⟩
  have hlastMem : lastE ∈ st.entries := by
    rw [List.getLast?_eq_getElem?] at hlast
    exact List.getElem?_mem hlast
  constructor
  · intro h0
    rw [hlast] at h0
    unfold addEntry
    rw [hlast]
    dsimp only
    rw [show Option.bind (some lastE) Entry.start = lastE.start from rfl] at h0
    rw [h0]
  · intro p hp
    rw [hlast] at hp
    rw [show Option.bind (some lastE) Entry.start = lastE.start from rfl] at hp
    have hpa : p % 60000 = 0 := by
      have h1 := (hA.2 lastE hlastMem).1
      rw [hp] at h1
      exact h1
    have hw : weekMs % 60000 = 0 := weekMs_aligned
    have hda : st.eventDuration % 60000 = 0 := hA.1
    refine ⟨?_, ?_, ?_⟩
    · intro h1
      unfold addEntry
      rw [hlast]
      dsimp only
      rw [hp]
      dsimp only
      rw [if_neg (by omega)]
      dsimp only
      simp only [formatDateTimeInput]
      rw [minuteFloor_of_aligned (by omega)]
      by_cases hd : st.eventDuration > 0
      · rw [if_pos hd, if_pos hd]
        rw [minuteFloor_of_aligned (by omega)]
      · rw [if_neg hd, if_neg hd]
    · intro q hgt hq
      obtain ⟨pen, hpen, hq'⟩ : ∃ pen, st.entries[st.entries.length - 2]? = some pen ∧
          pen.start = some q := by
        cases hh : st.entries[st.entries.length - 2]? with
        | none => rw [hh] at hq; exact absurd hq (by simp)
        | some pen =>
          rw [hh] at hq
          exact ⟨pen, rfl, by simpa using hq⟩
      have hqa : q % 60000 = 0 := by
        have h1 := (hA.2 pen (List.getElem?_mem hpen)).1
        rw [hq'] at h1
        exact h1
      unfold addEntry
      rw [hlast]
      dsimp only
      rw [hp]
      dsimp only
      rw [if_pos (by omega), hpen]
      simp only [Option.some_bind]
      rw [hq']
      dsimp only
      simp only [formatDateTimeInput]
      rw [show minuteFloor (p + (p - q)) = p + (p - q) from minuteFloor_of_aligned (by omega)]
      by_cases hd : st.eventDuration > 0
      · rw [if_pos hd, if_pos hd]
        rw [minuteFloor_of_aligned (by omega)]
      · rw [if_neg hd, if_neg hd]
    · intro hgt h2
      obtain ⟨pen, hpen, hq'⟩ : ∃ pen, st.entries[st.entries.length - 2]? = some pen ∧
          pen.start = none := by
        have hlt : st.entries.length - 2 < st.entries.length := by omega
        obtain ⟨pen, hh⟩ : ∃ a, st.entries[st.entries.length - 2]? = some a :=
          ⟨_, List.getElem?_eq_some.mpr ⟨hlt, rfl⟩⟩
        rw [hh] at h2
        exact ⟨pen, hh, by simpa using h2⟩
      unfold addEntry
      rw [hlast]
      dsimp only
      rw [hp]
      dsimp only
      rw [if_pos (by omega), hpen]
      simp only [Option.some_bind]
      rw [hq']

theorem addEntry_spec_witness :
    (addEntry ⟨[⟨some 0, none, ""⟩], 60000, "", "", true⟩).entries =
      (SyncState.mk [⟨some 0, none, ""⟩] 60000 "" "" true).entries ++
        [⟨some (0 + weekMs), if (SyncState.mk [⟨some 0, none, ""⟩] 60000 "" "" true).eventDuration > 0
            then some (0 + weekMs + (SyncState.mk [⟨some 0, none, ""⟩] 60000 "" "" true).eventDuration)
            else none, ""⟩] :=
  ((addEntry_spec ⟨[⟨some 0, none, ""⟩], 60000, "", "", true⟩ (by decide) (by decide)).2 0
    (by decide)).1 (by decide)

/-! ### Laws of the cascade loop -/

/-- One rewritten row of the cascade: start becomes the carried previous
start plus the delta, end becomes that plus the duration, then the row is
revalidated. -/
def cascadeStep (dur delta p : Int) (e : Entry) : Entry :=
  validateEndTime
    { e with
      start := formatDateTimeInput (some (p + delta))
      end_ := formatDateTimeInput (some (p + delta + dur)) }

theorem cascade_nil (dur delta : Int) (prev : Option Int) :
    cascade dur delta prev [] = [] := by
  cases prev <;> rfl

theorem cascade_cons_none (dur delta : Int) (e : Entry) (rest : List Entry) :
    cascade dur delta none (e :: rest) = e :: cascade dur delta e.start rest := rfl

theorem cascade_cons_some (dur delta p : Int) (e : Entry) (rest : List Entry) :
    cascade dur delta (some p) (e :: rest) =
      cascadeStep dur delta p e ::
        cascade dur delta (cascadeStep dur delta p e).start rest := rfl

theorem cascadeStep_start (dur delta p : Int) (e : Entry) :
    (cascadeStep dur delta p e).start = some (minuteFloor (p + delta)) := by
  unfold cascadeStep
  rw [validateEndTime_start]
  rfl

theorem cascadeStep_end (dur delta p : Int) (e : Entry) :
    (cascadeStep dur delta p e).end_ = some (minuteFloor (p + delta + dur)) := by
  unfold cascadeStep
  rw [validateEndTime_end]
  rfl

theorem cascadeStep_invAt (dur delta p : Int) (hdur : dur % 60000 = 0) (e : Entry) :
    InvAt dur (cascadeStep dur delta p e) := by
  intro hpos
  unfold endMatches
  rw [cascadeStep_start]
  dsimp only
  rw [cascadeStep_end, minuteFloor_add_aligned (p + delta) hdur]

theorem cascade_length (dur delta : Int) :
    ∀ (l : List Entry) (prev : Option Int), (cascade dur delta prev l).length = l.length := by
  intro l
  induction l with
  | nil => intro prev; rw [cascade_nil]
  | cons e rest ih =>
    intro prev
    cases prev with
    | none => rw [cascade_cons_none]; simp [ih]
    | some p => rw [cascade_cons_some]; simp [ih]

theorem cascade_invAt (dur delta : Int) (hdur : dur % 60000 = 0) :
    ∀ (l : List Entry) (prev : Option Int), (∀ e ∈ l, InvAt dur e) →
      ∀ e' ∈ cascade dur delta prev l, InvAt dur e' := by
  intro l
  induction l with
  | nil =>
    intro prev h e' he'
    rw [cascade_nil] at he'
    cases he'
  | cons e rest ih =>
    intro prev h e' he'
    cases prev with
    | none =>
      rw [cascade_cons_none] at he'
      rcases List.mem_cons.mp he' with h1 | h2
      · rw [h1]
        exact h e (List.mem_cons_self e rest)
      · exact ih e.start (fun x hx => h x (List.mem_cons_of_mem _ hx)) e' h2
    | some p =>
      rw [cascade_cons_some] at he'
      rcases List.mem_cons.mp he' with h1 | h2
      · rw [h1]
        exact cascadeStep_invAt dur delta p hdur e
      · exact ih (cascadeStep dur delta p e).start
          (fun x hx => h x (List.mem_cons_of_mem _ hx)) e' h2

theorem cascade_start_aligned (dur delta : Int) :
    ∀ (l : List Entry) (prev : Option Int), (∀ e ∈ l, OptAligned e.start) →
      ∀ e' ∈ cascade dur delta prev l, OptAligned e'.start := by
  intro l
  induction l with
  | nil =>
    intro prev h e' he'
    rw [cascade_nil] at he'
    cases he'
  | cons e rest ih =>
    intro prev h e' he'
    cases prev with
    | none =>
      rw [cascade_cons_none] at he'
      rcases List.mem_cons.mp he' with h1 | h2
      · rw [h1]
        exact h e (List.mem_cons_self e rest)
      · exact ih e.start (fun x hx => h x (List.mem_cons_of_mem _ hx)) e' h2
    | some p =>
      rw [cascade_cons_some] at he'
      rcases List.mem_cons.mp he' with h1 | h2
      · rw [h1, cascadeStep_start]
        exact minuteFloor_aligned _
      · exact ih (cascadeStep dur delta p e).start
          (fun x hx => h x (List.mem_cons_of_mem _ hx)) e' h2

/-- Positional characterisation of the cascade loop: row `i` of the output
is the input row rewritten through `cascadeStep` from the previous output
row's start (the carried `prev` for `i = 0`), and is the untouched input row
when that previous start is empty. -/
theorem cascade_getElem_rel (dur delta : Int) :
    ∀ (l : List Entry) (prev : Option Int) (i : Nat), i < l.length →
      (∀ p : Int,
        (if i = 0 then prev else ((cascade dur delta prev l)[i-1]?).bind Entry.start) = some p →
        (cascade dur delta prev l)[i]? = (l[i]?).map (cascadeStep dur delta p)) ∧
      ((if i = 0 then prev else ((cascade dur delta prev l)[i-1]?).bind Entry.start) = none →
        (cascade dur delta prev l)[i]? = l[i]?) := by
  intro l
  induction l with
  | nil =>
    intro prev i hi
    simp at hi
  | cons e rest ih =>
    intro prev i hi
    match i with
    | 0 =>
      constructor
      · intro p hp
        rw [if_pos rfl] at hp
        cases prev with
        | none => exact absurd hp (by simp)
        | some p0 =>
          injection hp with hpp
          rw [hpp, cascade_cons_some]
          simp
      · intro hp
        rw [if_pos rfl] at hp
        cases prev with
        | some p0 => exact absurd hp (by simp)
        | none =>
          rw [cascade_cons_none]
          simp
    | Nat.succ j =>
      have hj : j < rest.length := by
        simp at hi
        omega
      obtain ⟨eh, hsh⟩ : ∃ eh,
          cascade dur delta prev (e :: rest) = eh :: cascade dur delta eh.start rest := by
        cases prev with
        | none => exact ⟨e, cascade_cons_none dur delta e rest⟩
        | some p0 => exact ⟨cascadeStep dur delta p0 e, cascade_cons_some dur delta p0 e rest⟩
      have ih' := ih eh.start j hj
      rw [hsh]
      constructor
      · intro p hp
        rw [if_neg (Nat.succ_ne_zero j)] at hp
        rw [List.getElem?_cons_succ, List.getElem?_cons_succ]
        apply ih'.1 p
        cases j with
        | zero => simpa using hp
        | succ j' => simpa using hp
      · intro hp
        rw [if_neg (Nat.succ_ne_zero j)] at hp
        rw [List.getElem?_cons_succ, List.getElem?_cons_succ]
        apply ih'.2
        cases j with
        | zero => simpa using hp
        | succ j' => simpa using hp

/-! ### Decomposing a start edit -/

theorem toggle_then_enable (st0 : SyncState) :
    { toggleAddTimeButton st0 with addEnabled := true } = { st0 with addEnabled := true } := by
  unfold toggleAddTimeButton
  split <;> rfl

theorem updateFutureStartTimes_of_last (st : SyncState) (k : Nat)
    (h : st.entries.length ≤ k + 1) : updateFutureStartTimes st k = st := by
  unfold updateFutureStartTimes
  rw [if_pos (by omega)]

theorem updateFutureStartTimes_entries (st : SyncState) (k : Nat)
    (hk : k + 1 < st.entries.length) :
    (updateFutureStartTimes st k).entries =
      st.entries.take (k+1) ++
        cascade st.eventDuration (cascadeDelta st k) ((st.entries[k]?).bind Entry.start)
          (st.entries.drop (k+1)) := by
  unfold updateFutureStartTimes
  rw [if_neg (by omega)]

theorem updateFutureStartTimes_eventDuration (st : SyncState) (k : Nat) :
    (updateFutureStartTimes st k).eventDuration = st.eventDuration := by
  unfold updateFutureStartTimes
  split <;> rfl

theorem updateFutureStartTimes_getElem_le (st : SyncState) (k : Nat)
    (hk : k + 1 < st.entries.length) (i : Nat) (hi : i ≤ k) :
    (updateFutureStartTimes st k).entries[i]? = st.entries[i]? := by
  rw [updateFutureStartTimes_entries st k hk,
    List.getElem?_append_left (by simp [List.length_take]; omega), List.getElem?_take,
    if_pos (by omega)]

theorem updateFutureStartTimes_getElem_gt (st : SyncState) (k : Nat)
    (hk : k + 1 < st.entries.length) (i : Nat) (hi : k < i) :
    (updateFutureStartTimes st k).entries[i]? =
      (cascade st.eventDuration (cascadeDelta st k) ((st.entries[k]?).bind Entry.start)
        (st.entries.drop (k+1)))[i - (k+1)]? := by
  rw [updateFutureStartTimes_entries st k hk,
    List.getElem?_append_right (by simp [List.length_take]; omega)]
  congr 1
  simp [List.length_take]
  omega

theorem editStart_eq (st : SyncState) (k : Nat) (v : Option Int)
    (hk : k < st.entries.length) :
    editStart st k v =
      (if (updateFutureStartTimes
            { st with entries := modifyEntry st.entries k fun e => { e with start := v }
                      addEnabled := true } k).eventDuration ≤ 0 then
        updateFutureStartTimes
          { st with entries := modifyEntry st.entries k fun e => { e with start := v }
                    addEnabled := true } k
      else
        { updateFutureStartTimes
            { st with entries := modifyEntry st.entries k fun e => { e with start := v }
                      addEnabled := true } k with
          entries := modifyEntry
            (updateFutureStartTimes
              { st with entries := modifyEntry st.entries k fun e => { e with start := v }
                        addEnabled := true } k).entries k fun e =>
              validateEndTime
                { e with
                  end_ := formatDateTimeInput (v.map (· +
                    (updateFutureStartTimes
                      { st with entries := modifyEntry st.entries k fun e' => { e' with start := v }
                                addEnabled := true } k).eventDuration)) } }) := by
  unfold editStart
  rw [if_pos hk]
  dsimp only
  rw [toggle_then_enable]

/-! ### Positional description of a start edit -/

theorem updateFutureStartTimes_length (st : SyncState) (k : Nat) :
    (updateFutureStartTimes st k).entries.length = st.entries.length := by
  unfold updateFutureStartTimes
  split
  · rfl
  · simp [cascade_length, List.length_take, List.length_drop]
    omega

theorem enable_eventDuration (st0 : SyncState) :
    ({ toggleAddTimeButton st0 with addEnabled := true } : SyncState).eventDuration
      = st0.eventDuration := by
  dsimp only
  rw [toggleAddTimeButton_eventDuration]

theorem enable_entries (st0 : SyncState) :
    ({ toggleAddTimeButton st0 with addEnabled := true } : SyncState).entries = st0.entries := by
  dsimp only
  rw [toggleAddTimeButton_entries]

theorem editStart_eventDuration (st : SyncState) (k : Nat) (v : Option Int) :
    (editStart st k v).eventDuration = st.eventDuration := by
  unfold editStart
  split
  · dsimp only
    split <;> rw [updateFutureStartTimes_eventDuration, enable_eventDuration]
  · rfl

theorem editStart_length (st : SyncState) (k : Nat) (v : Option Int) :
    (editStart st k v).entries.length = st.entries.length := by
  unfold editStart
  split
  · dsimp only
    split
    · rw [updateFutureStartTimes_length, enable_entries, modifyEntry_length]
    · dsimp only
      rw [modifyEntry_length, updateFutureStartTimes_length, enable_entries, modifyEntry_length]
  · rfl

theorem editStart_getElem_lt (st : SyncState) (k : Nat) (v : Option Int)
    (hk : k < st.entries.length) (i : Nat) (hi : i < k) :
    (editStart st k v).entries[i]? = st.entries[i]? := by
  unfold editStart
  rw [if_pos hk]
  dsimp only
  have hle : ∀ st' : SyncState, (updateFutureStartTimes st' k).entries[i]? = st'.entries[i]? := by
    intro st'
    by_cases hlast : st'.entries.length ≤ k + 1
    · rw [updateFutureStartTimes_of_last st' k hlast]
    · exact updateFutureStartTimes_getElem_le st' k (by omega) i (by omega)
  split
  · rw [hle, enable_entries, modifyEntry_getElem_ne _ _ _ _ (by omega)]
  · dsimp only
    rw [modifyEntry_getElem_ne _ _ _ _ (by omega), hle, enable_entries,
      modifyEntry_getElem_ne _ _ _ _ (by omega)]

theorem editStart_getElem_k (st : SyncState) (k : Nat) (v : Option Int)
    (hk : k < st.entries.length) (e0 : Entry) (he0 : st.entries[k]? = some e0) :
    (editStart st k v).entries[k]? =
      some (if st.eventDuration ≤ 0 then { e0 with start := v }
        else validateEndTime { e0 with
          start := v
          end_ := formatDateTimeInput (v.map (· + st.eventDuration)) }) := by
  unfold editStart
  rw [if_pos hk]
  dsimp only
  have hle : ∀ st' : SyncState, (updateFutureStartTimes st' k).entries[k]? = st'.entries[k]? := by
    intro st'
    by_cases hlast : st'.entries.length ≤ k + 1
    · rw [updateFutureStartTimes_of_last st' k hlast]
    · exact updateFutureStartTimes_getElem_le st' k (by omega) k (le_refl k)
  split
  · rename_i hcond
    rw [updateFutureStartTimes_eventDuration, enable_eventDuration] at hcond
    rw [hle, enable_entries, modifyEntry_getElem_self, he0, Option.map_some', if_pos hcond]
  · rename_i hcond
    rw [updateFutureStartTimes_eventDuration, enable_eventDuration] at hcond
    dsimp only
    rw [modifyEntry_getElem_self, hle, enable_entries, modifyEntry_getElem_self, he0,
      Option.map_some', Option.map_some', updateFutureStartTimes_eventDuration,
      enable_eventDuration, if_neg hcond]

theorem cascadeDelta_enable (st0 : SyncState) (k : Nat) :
    cascadeDelta
      ⟨(toggleAddTimeButton st0).entries, (toggleAddTimeButton st0).eventDuration,
        (toggleAddTimeButton st0).durationField, (toggleAddTimeButton st0).durationValidity,
        true⟩ k = cascadeDelta st0 k := by
  unfold cascadeDelta
  dsimp only
  rw [toggleAddTimeButton_entries]

theorem editStart_getElem_gt (st : SyncState) (k : Nat) (v : Option Int)
    (hk : k + 1 < st.entries.length) (i : Nat) (hi : k < i) :
    (editStart st k v).entries[i]? =
      (cascade st.eventDuration
        (cascadeDelta { st with
          entries := modifyEntry st.entries k fun e => { e with start := v } } k)
        (((modifyEntry st.entries k fun e => { e with start := v })[k]?).bind Entry.start)
        ((modifyEntry st.entries k fun e => { e with start := v }).drop (k+1)))[i - (k+1)]? := by
  have hk' : k < st.entries.length := by omega
  unfold editStart
  rw [if_pos hk']
  dsimp only
  split
  · rw [updateFutureStartTimes_getElem_gt _ k
      (by rw [enable_entries]; dsimp only; rw [modifyEntry_length]; exact hk) i hi]
    rw [cascadeDelta_enable, enable_eventDuration, enable_entries]
  · dsimp only
    rw [modifyEntry_getElem_ne _ _ _ _ (by omega),
      updateFutureStartTimes_getElem_gt _ k
        (by rw [enable_entries]; dsimp only; rw [modifyEntry_length]; exact hk) i hi,
      cascadeDelta_enable, enable_eventDuration, enable_entries]

/-! ### Claim C2 (amended): the delta actually used by a start edit -/

/-- C2 (amended): editing entry `k`'s start to `v` recomputes each later
entry's start in order as the previous (possibly just-updated) entry's
start plus a delta, skipping an entry whose predecessor's start is empty;
the delta is the elapsed time from entry `k-1`'s start to the edited
entry's new start when `k > 0` and both are present, and exactly seven days
otherwise — in particular for every edit of entry 0, whatever spacing the
existing entries actually have. -/
theorem editStart_cascade_spec (st : SyncState) (k : Nat) (v : Option Int) (delta : Int)
    (hA : StateAligned st) (hk : k + 1 < st.entries.length)
    (hdelta : delta = if k = 0 then weekMs
      else match (st.entries[k-1]?).bind Entry.start, v with
        | some p, some c => c - p
        | _, _ => weekMs)
    (hv : OptAligned v) :
    (((editStart st k v).entries[k]?).map Entry.start = some v) ∧
    (∀ i : Nat, k < i → i < st.entries.length →
      (∀ p : Int, ((editStart st k v).entries[i-1]?).bind Entry.start = some p →
        ((editStart st k v).entries[i]?).bind Entry.start = some (p + delta)) ∧
      (((editStart st k v).entries[i-1]?).bind Entry.start = none →
        (editStart st k v).entries[i]? = st.entries[i]?)) := by
  have hk' : k < st.entries.length := by omega
  obtain ⟨e0, he0⟩ : ∃ a, st.entries[k]? = some a :=
    ⟨_, List.getElem?_eq_some.mpr ⟨hk', rfl⟩⟩
  set M := modifyEntry st.entries k (fun e => { e with start := v }) with hM
  set dC := cascadeDelta { st with entries := M } k with hdC
  set C := cascade st.eventDuration dC ((M[k]?).bind Entry.start) (M.drop (k+1)) with hC
  have hMk : M[k]? = some { e0 with start := v } := by
    rw [hM, modifyEntry_getElem_self, he0, Option.map_some']
  have hMset : M = st.entries.set k { e0 with start := v } := by
    rw [hM]
    unfold modifyEntry
    rw [he0]
  have hMlen : M.length = st.entries.length := by
    rw [hM, modifyEntry_length]
  have hprev : (M[k]?).bind Entry.start = v := by
    rw [hMk, Option.some_bind]
  have hgt : ∀ j, k < j → (editStart st k v).entries[j]? = C[j - (k+1)]? := by
    intro j hj
    rw [hC, hdC, hM]
    exact editStart_getElem_gt st k v hk j hj
  have hks : ((editStart st k v).entries[k]?).map Entry.start = some v := by
    rw [editStart_getElem_k st k v hk' e0 he0]
    by_cases hd : st.eventDuration ≤ 0
    · rw [if_pos hd]
      rfl
    · rw [if_neg hd, Option.map_some', validateEndTime_start]
  have hksb : ((editStart st k v).entries[k]?).bind Entry.start = v := by
    obtain ⟨ek, hoo, hse⟩ := Option.map_eq_some'.mp hks
    rw [hoo, Option.some_bind, hse]
  have hcd2 : dC = delta := by
    rw [hdC, hdelta]
    unfold cascadeDelta
    by_cases hk0 : k = 0
    · rw [if_neg (by omega), if_pos hk0]
    · rw [if_pos (by omega), if_neg hk0]
      have h1 : ({ st with entries := M } : SyncState).entries[k-1]? = st.entries[k-1]? := by
        dsimp only
        rw [hM, modifyEntry_getElem_ne _ _ _ _ (by omega)]
      have h2 : (({ st with entries := M } : SyncState).entries[k]?).bind Entry.start = v := by
        dsimp only
        rw [hMk, Option.some_bind]
      rw [h1, h2]
  have hdal : delta % 60000 = 0 := by
    rw [hdelta]
    by_cases hk0 : k = 0
    · rw [if_pos hk0]
      exact weekMs_aligned
    · rw [if_neg hk0]
      cases hb : (st.entries[k-1]?).bind Entry.start with
      | none => cases hvv : v <;> exact weekMs_aligned
      | some pb =>
        cases hvv : v with
        | none => exact weekMs_aligned
        | some cv =>
          obtain ⟨epb, hepb, hepb'⟩ : ∃ a, st.entries[k-1]? = some a ∧ a.start = some pb := by
            cases hbb : st.entries[k-1]? with
            | none =>
              rw [hbb] at hb
              exact absurd hb (by simp)
            | some a =>
              rw [hbb] at hb
              exact ⟨a, rfl, by simpa using hb⟩
          have hpba : pb % 60000 = 0 := by
            have h1 := (hA.2 epb (List.getElem?_mem hepb)).1
            rw [hepb'] at h1
            exact h1
          have hcva : cv % 60000 = 0 := by
            rw [hvv] at hv
            exact hv
          show (cv - pb) % 60000 = 0
          omega
  have hCalign : ∀ e' ∈ C, OptAligned e'.start := by
    rw [hC]
    apply cascade_start_aligned
    intro e he
    have hmem := List.mem_of_mem_drop he
    rw [hMset] at hmem
    rcases List.mem_or_eq_of_mem_set hmem with h1 | h2
    · exact (hA.2 e h1).1
    · rw [h2]
      exact hv
  refine ⟨hks, ?_⟩
  intro i hik hin
  have hj : i - (k+1) < (M.drop (k+1)).length := by
    simp [hMlen]
    omega
  have hrel := cascade_getElem_rel st.eventDuration dC (M.drop (k+1))
    ((M[k]?).bind Entry.start) (i - (k+1)) hj
  rw [← hC] at hrel
  constructor
  · intro p hp
    have hcond : (if i - (k+1) = 0 then ((M[k]?).bind Entry.start)
        else (C[(i - (k+1)) - 1]?).bind Entry.start) = some p := by
      by_cases hik1 : i = k + 1
      · rw [if_pos (by omega), hprev, ← hksb]
        rw [hik1] at hp
        rw [show k + 1 - 1 = k from by omega] at hp
        exact hp
      · rw [if_neg (by omega), show (i - (k+1)) - 1 = (i-1) - (k+1) from by omega,
          ← hgt (i-1) (by omega)]
        exact hp
    have hpal : p % 60000 = 0 := by
      by_cases hik1 : i = k + 1
      · have hvp : v = some p := by
          rw [← hksb]
          rw [hik1] at hp
          rw [show k + 1 - 1 = k from by omega] at hp
          exact hp
        rw [hvp] at hv
        exact hv
      · have hp' : (C[(i-1) - (k+1)]?).bind Entry.start = some p := by
          rw [← hgt (i-1) (by omega)]
          exact hp
        obtain ⟨e2, he2, he2s⟩ : ∃ a, C[(i-1)-(k+1)]? = some a ∧ a.start = some p := by
          cases hoo : C[(i-1)-(k+1)]? with
          | none =>
            rw [hoo] at hp'
            exact absurd hp' (by simp)
          | some a =>
            rw [hoo] at hp'
            exact ⟨a, rfl, by simpa using hp'⟩
        have h3 := hCalign e2 (List.getElem?_mem he2)
        rw [he2s] at h3
        exact h3
    have hmain := hrel.1 p hcond
    obtain ⟨e1, he1⟩ : ∃ a, (M.drop (k+1))[i - (k+1)]? = some a :=
      ⟨_, List.getElem?_eq_some.mpr ⟨hj, rfl⟩⟩
    rw [hgt i hik, hmain, he1, Option.map_some', Option.some_bind, cascadeStep_start, hcd2,
      minuteFloor_of_aligned (by omega)]
  · intro hp
    have hcond : (if i - (k+1) = 0 then ((M[k]?).bind Entry.start)
        else (C[(i - (k+1)) - 1]?).bind Entry.start) = none := by
      by_cases hik1 : i = k + 1
      · rw [if_pos (by omega), hprev, ← hksb]
        rw [hik1] at hp
        rw [show k + 1 - 1 = k from by omega] at hp
        exact hp
      · rw [if_neg (by omega), show (i - (k+1)) - 1 = (i-1) - (k+1) from by omega,
          ← hgt (i-1) (by omega)]
        exact hp
    have hmain := hrel.2 hcond
    rw [hgt i hik, hmain, List.getElem?_drop,
      show (k+1) + (i - (k+1)) = i from by omega, hM,
      modifyEntry_getElem_ne _ _ _ _ (by omega)]

theorem editStart_cascade_spec_witness :
    ((editStart twoDayState 0 (some 86400000)).entries[1]?).bind Entry.start
      = some (86400000 + weekMs) :=
  ((editStart_cascade_spec twoDayState 0 (some 86400000) weekMs (by decide) (by decide)
      (by decide) (by decide)).2 1 (by decide) (by decide)).1 86400000 (by decide)

/-! ### Claim C9 (amended): a start edit with zero duration -/

theorem cascadeStep_zero_dur (delta p : Int) (e : Entry) :
    cascadeStep 0 delta p e =
      ⟨some (minuteFloor (p + delta)), some (minuteFloor (p + delta)), endTimeMsg⟩ := by
  unfold cascadeStep
  rw [show p + delta + 0 = p + delta from by ring]
  dsimp only [formatDateTimeInput]
  rw [validateEndTime_some_some, if_pos (le_refl _)]

/-- C9 (amended): with `eventDuration = 0`, editing entry `k`'s start leaves
the edited entry's own end unchanged, but each cascaded later entry whose
predecessor's start is present has its end rewritten to equal its new start
and is flagged "End time must be after start time."; only entries whose
predecessor's start is empty keep their fields. -/
theorem editStart_zero_duration_spec (st : SyncState) (k : Nat) (v : Option Int)
    (hd : st.eventDuration = 0) (hk : k < st.entries.length) :
    (((editStart st k v).entries[k]?).map Entry.end_ = (st.entries[k]?).map Entry.end_) ∧
    (∀ i : Nat, k < i → i < st.entries.length →
      (∀ p : Int, ((editStart st k v).entries[i-1]?).bind Entry.start = some p →
        ∃ x : Int, (editStart st k v).entries[i]? = some ⟨some x, some x, endTimeMsg⟩) ∧
      (((editStart st k v).entries[i-1]?).bind Entry.start = none →
        (editStart st k v).entries[i]? = st.entries[i]?)) := by
  obtain ⟨e0, he0⟩ : ∃ a, st.entries[k]? = some a :=
    ⟨_, List.getElem?_eq_some.mpr ⟨hk, rfl⟩⟩
  have hpostk : (editStart st k v).entries[k]? = some { e0 with start := v } := by
    rw [editStart_getElem_k st k v hk e0 he0, if_pos (by omega)]
  constructor
  · rw [hpostk, he0]
    rfl
  · intro i hik hin
    have hk2 : k + 1 < st.entries.length := by omega
    set M := modifyEntry st.entries k (fun e => { e with start := v }) with hM
    set dC := cascadeDelta { st with entries := M } k with hdC
    set C := cascade st.eventDuration dC ((M[k]?).bind Entry.start) (M.drop (k+1)) with hC
    have hMk : M[k]? = some { e0 with start := v } := by
      rw [hM, modifyEntry_getElem_self, he0, Option.map_some']
    have hMlen : M.length = st.entries.length := by
      rw [hM, modifyEntry_length]
    have hprev : (M[k]?).bind Entry.start = v := by
      rw [hMk, Option.some_bind]
    have hksb : ((editStart st k v).entries[k]?).bind Entry.start = v := by
      rw [hpostk, Option.some_bind]
    have hgt : ∀ j, k < j → (editStart st k v).entries[j]? = C[j - (k+1)]? := by
      intro j hj
      rw [hC, hdC, hM]
      exact editStart_getElem_gt st k v hk2 j hj
    have hj : i - (k+1) < (M.drop (k+1)).length := by
      simp [hMlen]
      omega
    have hrel := cascade_getElem_rel st.eventDuration dC (M.drop (k+1))
      ((M[k]?).bind Entry.start) (i - (k+1)) hj
    rw [← hC] at hrel
    constructor
    · intro p hp
      have hcond : (if i - (k+1) = 0 then ((M[k]?).bind Entry.start)
          else (C[(i - (k+1)) - 1]?).bind Entry.start) = some p := by
        by_cases hik1 : i = k + 1
        · rw [if_pos (by omega), hprev, ← hksb]
          rw [hik1] at hp
          rw [show k + 1 - 1 = k from by omega] at hp
          exact hp
        · rw [if_neg (by omega), show (i - (k+1)) - 1 = (i-1) - (k+1) from by omega,
            ← hgt (i-1) (by omega)]
          exact hp
      have hmain := hrel.1 p hcond
      obtain ⟨e1, he1⟩ : ∃ a, (M.drop (k+1))[i - (k+1)]? = some a :=
        ⟨_, List.getElem?_eq_some.mpr ⟨hj, rfl⟩⟩
      refine ⟨minuteFloor (p + dC), ?_⟩
      rw [hgt i hik, hmain, he1, Option.map_some', hd, cascadeStep_zero_dur]
    · intro hp
      have hcond : (if i - (k+1) = 0 then ((M[k]?).bind Entry.start)
          else (C[(i - (k+1)) - 1]?).bind Entry.start) = none := by
        by_cases hik1 : i = k + 1
        · rw [if_pos (by omega), hprev, ← hksb]
          rw [hik1] at hp
          rw [show k + 1 - 1 = k from by omega] at hp
          exact hp
        · rw [if_neg (by omega), show (i - (k+1)) - 1 = (i-1) - (k+1) from by omega,
            ← hgt (i-1) (by omega)]
          exact hp
      have hmain := hrel.2 hcond
      rw [hgt i hik, hmain, List.getElem?_drop,
        show (k+1) + (i - (k+1)) = i from by omega, hM,
        modifyEntry_getElem_ne _ _ _ _ (by omega)]

theorem editStart_zero_duration_spec_witness :
    ((editStart zeroDurationState 0 (some 86400000)).entries[0]?).map Entry.end_
      = (zeroDurationState.entries[0]?).map Entry.end_ :=
  (editStart_zero_duration_spec zeroDurationState 0 (some 86400000) (by decide) (by decide)).1

/-! ### Helper laws for the invariant theorem -/

theorem syncEndTimes_entries (st : SyncState) :
    (syncEndTimes st).entries = st.entries.map (syncEntry st.eventDuration) := rfl

theorem syncEndTimes_eventDuration (st : SyncState) :
    (syncEndTimes st).eventDuration = st.eventDuration := rfl

theorem editDuration_pos (st : SyncState) (s : String) (h : parseDuration s > 0) :
    (editDuration st s).entries = st.entries.map (syncEntry (parseDuration s)) ∧
    (editDuration st s).eventDuration = parseDuration s := by
  unfold editDuration
  dsimp only
  rw [if_pos h]
  exact ⟨rfl, rfl⟩

theorem editDuration_nonpos (st : SyncState) (s : String) (h : ¬ parseDuration s > 0) :
    (editDuration st s).entries = st.entries ∧
    (editDuration st s).eventDuration = st.eventDuration := by
  unfold editDuration
  dsimp only
  rw [if_neg h]
  exact ⟨rfl, rfl⟩

theorem addEntry_eventDuration (st : SyncState) :
    (addEntry st).eventDuration = st.eventDuration := by
  unfold addEntry
  split
  · rfl
  · split
    · rfl
    · dsimp only
      split <;> rfl

theorem updateDuration_no_start (st : SyncState) (k : Nat) (e' : Entry)
    (he' : st.entries[k]? = some e') (h : e'.start = none) : updateDuration st k = st := by
  unfold updateDuration
  rw [he']
  dsimp only
  rw [h]

theorem updateDuration_no_end (st : SyncState) (k : Nat) (e' : Entry)
    (he' : st.entries[k]? = some e') (h : e'.end_ = none) : updateDuration st k = st := by
  unfold updateDuration
  rw [he']
  dsimp only
  rw [h]
  cases hs : e'.start <;> rfl

theorem editEnd_eq (st : SyncState) (k : Nat) (v : Option Int) (hk : k < st.entries.length) :
    editEnd st k v =
      (fun st2 : SyncState => { st2 with entries := modifyEntry st2.entries k validateEndTime })
        (updateDuration
          (toggleAddTimeButton
            { st with entries := modifyEntry st.entries k fun e' => { e' with end_ := v } })
          k) := by
  unfold editEnd
  rw [if_pos hk]

theorem invAt_of_fields (dur : Int) (hdur : dur % 60000 = 0) (x : Int) (m : String) :
    InvAt dur ⟨formatDateTimeInput (some x),
      if dur > 0 then formatDateTimeInput (some (x + dur)) else none, m⟩ := by
  intro hpos
  unfold endMatches
  dsimp only [formatDateTimeInput]
  rw [if_pos hpos]
  rw [minuteFloor_add_aligned x hdur]

theorem addEntry_invAt (st : SyncState) (hA : StateAligned st) (hInv : Inv st) :
    ∀ e ∈ (addEntry st).entries, InvAt st.eventDuration e := by
  intro e he
  unfold addEntry at he
  split at he
  · exact hInv e he
  · split at he
    · exact hInv e he
    · rename_i lastE hlast p hp
      dsimp only at he
      split at he
      · rcases List.mem_append.mp he with h1 | h2
        · exact hInv e h1
        · rw [List.mem_singleton.mp h2]
          intro hpos
          trivial
      · rename_i d hd
        rcases List.mem_append.mp he with h1 | h2
        · exact hInv e h1
        · rw [List.mem_singleton.mp h2]
          exact invAt_of_fields st.eventDuration hA.1 (p + d) ""

/-! ### Claim C1 (amended): the end-sync invariant across operations -/

/-- C1 (amended): immediately after any successful start edit, end edit,
duration edit, add entry or remove entry — given that the invariant held
before and that all field values and the edit's value have minute
resolution — every entry that has a start value while the shared
`eventDuration` is positive has end = start + eventDuration, except an
entry whose end field the user directly overrode in that very operation
(`initialiseTimes` is not in this list: it establishes the invariant only
for the first entry and leaves later pre-loaded ends un-resynced). -/
theorem invariant_preserved_by_edits (op : Op) (st : SyncState)
    (hA : StateAligned st) (hop : OpAligned op) (hInv : Inv st) :
    ∀ i : Nat, ¬ overrodeEnd op i →
      ∀ e : Entry, (op.apply st).entries[i]? = some e →
        InvAt (op.apply st).eventDuration e := by
  cases op with
  | editDuration s =>
    intro i _ e he
    dsimp only [Op.apply] at he ⊢
    by_cases hpd : parseDuration s > 0
    · obtain ⟨hE, hD⟩ := editDuration_pos st s hpd
      rw [hE, List.getElem?_map] at he
      rw [hD]
      obtain ⟨e0, he0, hmap⟩ := Option.map_eq_some'.mp he
      rw [← hmap]
      exact syncEntry_invAt (parseDuration s) (parseDuration_aligned s) e0
        ((hA.2 e0 (List.getElem?_mem he0)).1)
    · obtain ⟨hE, hD⟩ := editDuration_nonpos st s hpd
      rw [hE] at he
      rw [hD]
      exact hInv e (List.getElem?_mem he)
  | add =>
    intro i _ e he
    dsimp only [Op.apply] at he ⊢
    rw [addEntry_eventDuration]
    exact addEntry_invAt st hA hInv e (List.getElem?_mem he)
  | remove k =>
    intro i _ e he
    dsimp only [Op.apply] at he ⊢
    unfold removeEntry at he ⊢
    dsimp only at he ⊢
    rw [List.eraseIdx_eq_take_drop_succ] at he
    rcases List.mem_append.mp (List.getElem?_mem he) with h1 | h2
    · exact hInv e (List.mem_of_mem_take h1)
    · exact hInv e (List.mem_of_mem_drop h2)
  | editStart k v =>
    intro i _ e he
    dsimp only [Op.apply] at he ⊢
    rw [editStart_eventDuration]
    by_cases hk : k < st.entries.length
    · by_cases hdp : 0 < st.eventDuration
      · obtain ⟨e0, he0⟩ : ∃ a, st.entries[k]? = some a :=
          ⟨_, List.getElem?_eq_some.mpr ⟨hk, rfl⟩⟩
        have hMset : modifyEntry st.entries k (fun e' => { e' with start := v })
            = st.entries.set k { e0 with start := v } := by
          unfold modifyEntry
          rw [he0]
        rcases lt_trichotomy i k with hik | hik | hik
        · rw [editStart_getElem_lt st k v hk i hik] at he
          exact hInv e (List.getElem?_mem he)
        · rw [hik, editStart_getElem_k st k v hk e0 he0, if_neg (by omega)] at he
          injection he with he'
          rw [← he']
          intro _
          unfold endMatches
          rw [validateEndTime_start]
          cases hvv : v with
          | none => trivial
          | some t =>
            dsimp only [Option.map_some']
            rw [validateEndTime_end]
            have hta : t % 60000 = 0 := by
              rw [hvv] at hop
              exact hop
            show some (minuteFloor (t + st.eventDuration)) = some (t + st.eventDuration)
            rw [minuteFloor_of_aligned (by have := hA.1; omega)]
        · by_cases hk2 : k + 1 < st.entries.length
          · rw [editStart_getElem_gt st k v hk2 i hik] at he
            refine cascade_invAt st.eventDuration _ hA.1 _ _ ?_ e (List.getElem?_mem he)
            intro x hx
            rw [hMset, List.drop_set, if_pos (by omega)] at hx
            exact hInv x (List.mem_of_mem_drop hx)
          · have hnone : (editStart st k v).entries[i]? = none := by
              apply List.getElem?_eq_none
              rw [editStart_length]
              omega
            rw [hnone] at he
            cases he
      · intro hpos
        exact absurd hpos hdp
    · unfold editStart at he
      rw [if_neg hk] at he
      exact hInv e (List.getElem?_mem he)
  | editEnd k v =>
    intro i hni e he
    have hni' : i ≠ k := hni
    dsimp only [Op.apply] at he ⊢
    by_cases hk : k < st.entries.length
    · obtain ⟨ek, hek⟩ : ∃ a, st.entries[k]? = some a :=
        ⟨_, List.getElem?_eq_some.mpr ⟨hk, rfl⟩⟩
      rw [editEnd_eq st k v hk] at he ⊢
      dsimp only at he ⊢
      set st1 := toggleAddTimeButton
          { st with entries := modifyEntry st.entries k fun e' => { e' with end_ := v } }
        with hst1
      have hst1e : st1.entries = modifyEntry st.entries k fun e' => { e' with end_ := v } := by
        rw [hst1, toggleAddTimeButton_entries]
      have hst1k : st1.entries[k]? = some { ek with end_ := v } := by
        rw [hst1e, modifyEntry_getElem_self, hek, Option.map_some']
      have hst1d : st1.eventDuration = st.eventDuration := by
        rw [hst1, toggleAddTimeButton_eventDuration]
      cases hsv : ek.start with
      | none =>
        rw [updateDuration_no_start st1 k { ek with end_ := v } hst1k hsv] at he ⊢
        rw [modifyEntry_getElem_ne _ _ _ _ hni', hst1e,
          modifyEntry_getElem_ne _ _ _ _ hni'] at he
        rw [hst1d]
        exact hInv e (List.getElem?_mem he)
      | some s =>
        cases hvv : v with
        | none =>
          rw [updateDuration_no_end st1 k { ek with end_ := v } hst1k (by rw [hvv])] at he ⊢
          rw [modifyEntry_getElem_ne _ _ _ _ hni', hst1e,
            modifyEntry_getElem_ne _ _ _ _ hni'] at he
          rw [hst1d]
          exact hInv e (List.getElem?_mem he)
        | some t =>
          have hta : t % 60000 = 0 := by
            rw [hvv] at hop
            exact hop
          have hsa : s % 60000 = 0 := by
            have h1 := (hA.2 ek (List.getElem?_mem hek)).1
            rw [hsv] at h1
            exact h1
          by_cases hneg : t - s < 0
          · rw [updateDuration_of_neg st1 k { ek with end_ := v } s t hst1k hsv
              (by rw [hvv]) hneg] at he ⊢
            rw [modifyEntry_getElem_ne _ _ _ _ hni'] at he
            dsimp only at he ⊢
            rw [modifyEntry_getElem_ne _ _ _ _ hni', hst1e,
              modifyEntry_getElem_ne _ _ _ _ hni'] at he
            rw [hst1d]
            exact hInv e (List.getElem?_mem he)
          · rw [updateDuration_of_nonneg st1 k { ek with end_ := v } s t hst1k hsv
              (by rw [hvv]) hneg] at he ⊢
            rw [modifyEntry_getElem_ne _ _ _ _ hni', syncEndTimes_entries] at he
            dsimp only at he
            rw [List.getElem?_map, modifyEntry_getElem_ne _ _ _ _ hni', hst1e,
              modifyEntry_getElem_ne _ _ _ _ hni'] at he
            obtain ⟨e0, he0, hmap⟩ := Option.map_eq_some'.mp he
            rw [← hmap, syncEndTimes_eventDuration]
            dsimp only
            exact syncEntry_invAt (t - s) (by omega) e0
              ((hA.2 e0 (List.getElem?_mem he0)).1)
    · unfold editEnd at he ⊢
      rw [if_neg hk] at he ⊢
      exact hInv e (List.getElem?_mem he)

theorem invariant_preserved_by_edits_witness :
    InvAt ((Op.editDuration "00:01:00").apply
        ⟨[⟨some 0, some 60000, ""⟩], 60000, "00:00:01", "", true⟩).eventDuration
      ⟨some 0, some 3600000, ""⟩ :=
  invariant_preserved_by_edits (Op.editDuration "00:01:00")
    ⟨[⟨some 0, some 60000, ""⟩], 60000, "00:00:01", "", true⟩
    (by decide) (by decide) (by decide) 0 (by decide) ⟨some 0, some 3600000, ""⟩ (by decide)
